import Mathlib

/-!
# Verification of the portfolio persistence layer (`src/server.js`)

Shallow embedding of the JSON-shaped persistence core of the Express portfolio
server: the atomic document store (`readJson`/`writeJsonAtomic`), the
promise-chain write serialization queue, the bounded submission log
(`appendSubmission`/`patchSubmission`), and the section normalization routes
(`/admin/meta`, `/admin/hero`, `/admin/projects`, `/admin/section/:id`).

Modelling conventions:
* JSON documents are the inductive `Json`.  Numbers are modelled as `Int`
  (the documents handled by the server contain only integer numerals; JS
  numbers are IEEE doubles, out of scope of this embedding), so the parser
  accepts only integer numerals and does not accept fraction/exponent parts.
  The parser also accepts leading zeros in numerals, which `JSON.parse`
  rejects; no modelled behaviour depends on that corner.
* `JSON.stringify(value, null, 2)` and `JSON.parse` are platform builtins; they
  are embedded as `Json.stringify` / `Json.parse` below, following the
  ECMA-262 algorithms (two-space pretty printing, string escaping, the four
  JSON whitespace characters).
* JS objects are association lists in insertion order.  `JSON.parse` keeps
  duplicate keys as parsed (a JS object collapses them; the server never
  produces duplicate keys).  JS property update (`o.k = v`) is `jSet`:
  replace in place if the key is present, append otherwise.
* Strings are Lean `String`s; `String.length` counts scalar values where JS
  `.length` counts UTF-16 units — they agree outside astral-plane characters,
  which no modelled check depends on.
-/

namespace Portfolio

/-- A JSON value, as produced by `JSON.parse` / consumed by `JSON.stringify`
in `src/server.js`.  Objects are association lists in insertion order. -/
inductive Json where
  | null : Json
  | bool : Bool → Json
  | num : Int → Json
  | str : String → Json
  | arr : List Json → Json
  | obj : List (String × Json) → Json
deriving Inhabited

/-! ## The printer: `JSON.stringify(value, null, 2)` -/

/-- The indentation emitted by `JSON.stringify(…, null, 2)` at nesting
depth `n`: `2 * n` spaces. -/
def indentChars (n : Nat) : List Char := List.replicate (2 * n) ' '

/-- Decimal digits of a natural number, most significant first. -/
def natDigits (n : Nat) : List Char :=
  if _h : n < 10 then [Nat.digitChar n]
  else natDigits (n / 10) ++ [Nat.digitChar (n % 10)]
termination_by n
decreasing_by exact Nat.div_lt_self (by omega) (by norm_num)

/-- Decimal rendering of an integer, as `String(number)` renders the integers
the server stores. -/
def intDigits (i : Int) : List Char :=
  if i < 0 then '-' :: natDigits i.natAbs else natDigits i.toNat

/-- String escaping of `JSON.stringify` (ECMA-262 `QuoteJSONString`): the two
metacharacters, the five named control escapes, `\u00xx` for the remaining
control characters, and everything else verbatim. -/
def escChar (c : Char) : List Char :=
  if c = '"' then ['\\', '"']
  else if c = '\\' then ['\\', '\\']
  else if c = '\n' then ['\\', 'n']
  else if c = '\r' then ['\\', 'r']
  else if c = '\t' then ['\\', 't']
  else if c = Char.ofNat 8 then ['\\', 'b']
  else if c = Char.ofNat 12 then ['\\', 'f']
  else if c.toNat < 32 then
    ['\\', 'u', '0', '0', Nat.digitChar (c.toNat / 16), Nat.digitChar (c.toNat % 16)]
  else [c]

/-- Body of a printed JSON string: each character escaped. -/
def escList (cs : List Char) : List Char := (cs.map escChar).flatten

/-- A printed JSON string, quotes included. -/
def printStr (s : String) : List Char := '"' :: (escList s.data ++ ['"'])

mutual

/-- `JSON.stringify(v, null, 2)` at indentation depth `ind`, as a character
list. -/
def printVal : Json → Nat → List Char
  | .null, _ => ['n', 'u', 'l', 'l']
  | .bool true, _ => ['t', 'r', 'u', 'e']
  | .bool false, _ => ['f', 'a', 'l', 's', 'e']
  | .num i, _ => intDigits i
  | .str s, _ => printStr s
  | .arr [], _ => ['[', ']']
  | .arr (x :: xs), ind =>
    '[' :: '\n' :: (indentChars (ind + 1) ++ (printVal x (ind + 1) ++
      (printItems xs (ind + 1) ++ ('\n' :: (indentChars ind ++ [']'])))))
  | .obj [], _ => ['{', '}']
  | .obj ((k, v) :: kvs), ind =>
    '{' :: '\n' :: (indentChars (ind + 1) ++ (printStr k ++ (':' :: ' ' ::
      (printVal v (ind + 1) ++ (printMembers kvs (ind + 1) ++
        ('\n' :: (indentChars ind ++ ['}'])))))))

/-- The elements of a nonempty printed array after the first: `,\n`,
indentation, the element. -/
def printItems : List Json → Nat → List Char
  | [], _ => []
  | x :: xs, ind => ',' :: '\n' :: (indentChars ind ++ (printVal x ind ++ printItems xs ind))

/-- The members of a nonempty printed object after the first. -/
def printMembers : List (String × Json) → Nat → List Char
  | [], _ => []
  | (k, v) :: kvs, ind =>
    ',' :: '\n' :: (indentChars ind ++ (printStr k ++ (':' :: ' ' ::
      (printVal v ind ++ printMembers kvs ind))))

end

/-- `JSON.stringify(value, null, 2)` (src/server.js:104). -/
def Json.stringify (v : Json) : String := String.mk (printVal v 0)

/-- The exact file contents produced by `writeJsonAtomic` for `value`
(src/server.js:104): `JSON.stringify(value, null, 2) + '\n'`. -/
def writtenContent (v : Json) : String := v.stringify ++ "\n"

/-! ## The parser: `JSON.parse` -/

/-- The four JSON whitespace characters (ECMA-404 / `JSON.parse`). -/
def isWsChar (c : Char) : Bool := c = ' ' || c = '\n' || c = '\t' || c = '\r'

/-- Drop leading JSON whitespace. -/
def skipWs : List Char → List Char
  | [] => []
  | c :: cs => if isWsChar c then skipWs cs else c :: cs

/-- Value of a hexadecimal digit. -/
def hexVal? (c : Char) : Option Nat :=
  if '0' ≤ c ∧ c ≤ '9' then some (c.toNat - 48)
  else if 'a' ≤ c ∧ c ≤ 'f' then some (c.toNat - 87)
  else if 'A' ≤ c ∧ c ≤ 'F' then some (c.toNat - 55)
  else none

/-- The single-character string escapes of JSON. -/
def unescape? (e : Char) : Option Char :=
  if e = '"' then some '"'
  else if e = '\\' then some '\\'
  else if e = '/' then some '/'
  else if e = 'b' then some (Char.ofNat 8)
  else if e = 'f' then some (Char.ofNat 12)
  else if e = 'n' then some '\n'
  else if e = 'r' then some '\r'
  else if e = 't' then some '\t'
  else none

/-- Parse the body of a JSON string after the opening quote, returning the
decoded characters and the input after the closing quote.  Raw control
characters are refused, as `JSON.parse` refuses them.  A `\uXXXX` escape
decodes through `Char.ofNat` (a lone surrogate half, which Lean characters
cannot hold, decodes to `'\0'`; the server never stores such strings). -/
def parseStrBody : List Char → Option (List Char × List Char)
  | [] => none
  | c :: rest =>
    if c = '"' then some ([], rest)
    else if c = '\\' then
      match rest with
      | [] => none
      | e :: rest' =>
        if e = 'u' then
          match rest' with
          | h1 :: h2 :: h3 :: h4 :: rest'' =>
            match hexVal? h1, hexVal? h2, hexVal? h3, hexVal? h4 with
            | some a, some b, some c3, some d =>
              (parseStrBody rest'').map
                (fun r => (Char.ofNat (4096 * a + 256 * b + 16 * c3 + d) :: r.1, r.2))
            | _, _, _, _ => none
          | _ => none
        else
          match unescape? e with
          | some u => (parseStrBody rest').map (fun r => (u :: r.1, r.2))
          | none => none
    else if c.toNat < 32 then none
    else (parseStrBody rest).map (fun r => (c :: r.1, r.2))

/-- Numeric value of a run of decimal digits, and what follows it. -/
def parseDigits (cs : List Char) : Option (Nat × List Char) :=
  let ds := cs.takeWhile Char.isDigit
  if ds.isEmpty then none
  else some (ds.foldl (fun a c => 10 * a + (c.toNat - 48)) 0, cs.dropWhile Char.isDigit)

/-- Parse an integer numeral (see the module comment: the embedding restricts
JSON numbers to integers). -/
def parseNumber (cs : List Char) : Option (Json × List Char) :=
  match cs with
  | [] => none
  | c :: rest =>
    if c = '-' then (parseDigits rest).map (fun r => (Json.num (-(r.1 : Int)), r.2))
    else (parseDigits cs).map (fun r => (Json.num ((r.1 : Nat) : Int), r.2))

mutual

/-- Parse one JSON value (leading whitespace allowed), returning it and the
rest of the input.  `fuel` only bounds recursion depth; `Json.parse` supplies
more fuel than any input can consume. -/
def parseVal : Nat → List Char → Option (Json × List Char)
  | 0, _ => none
  | fuel + 1, cs =>
    match skipWs cs with
    | [] => none
    | c :: rest =>
      if c = 'n' then
        match rest with
        | 'u' :: 'l' :: 'l' :: r => some (.null, r)
        | _ => none
      else if c = 't' then
        match rest with
        | 'r' :: 'u' :: 'e' :: r => some (.bool true, r)
        | _ => none
      else if c = 'f' then
        match rest with
        | 'a' :: 'l' :: 's' :: 'e' :: r => some (.bool false, r)
        | _ => none
      else if c = '"' then
        (parseStrBody rest).map (fun r => (.str (String.mk r.1), r.2))
      else if c = '[' then
        match skipWs rest with
        | ']' :: r => some (.arr [], r)
        | cs₁ =>
          match parseVal fuel cs₁ with
          | none => none
          | some (v, r₁) =>
            match parseItems fuel r₁ with
            | none => none
            | some (vs, r₂) => some (.arr (v :: vs), r₂)
      else if c = '{' then
        match skipWs rest with
        | '}' :: r => some (.obj [], r)
        | '"' :: r =>
          match parseStrBody r with
          | none => none
          | some (k, r₁) =>
            match skipWs r₁ with
            | ':' :: r₂ =>
              match parseVal fuel r₂ with
              | none => none
              | some (v, r₃) =>
                match parseMembers fuel r₃ with
                | none => none
                | some (kvs, r₄) => some (.obj ((String.mk k, v) :: kvs), r₄)
            | _ => none
        | _ => none
      else if c = '-' ∨ c.isDigit then parseNumber (c :: rest)
      else none

/-- After the first element of an array: repeatedly `, value`, then `]`. -/
def parseItems : Nat → List Char → Option (List Json × List Char)
  | 0, _ => none
  | fuel + 1, cs =>
    match skipWs cs with
    | ']' :: r => some ([], r)
    | ',' :: r =>
      match parseVal fuel r with
      | none => none
      | some (v, r₁) =>
        match parseItems fuel r₁ with
        | none => none
        | some (vs, r₂) => some (v :: vs, r₂)
    | _ => none

/-- After the first member of an object: repeatedly `, "key": value`,
then `}`. -/
def parseMembers : Nat → List Char → Option (List (String × Json) × List Char)
  | 0, _ => none
  | fuel + 1, cs =>
    match skipWs cs with
    | '}' :: r => some ([], r)
    | ',' :: r =>
      match skipWs r with
      | '"' :: r₁ =>
        match parseStrBody r₁ with
        | none => none
        | some (k, r₂) =>
          match skipWs r₂ with
          | ':' :: r₃ =>
            match parseVal fuel r₃ with
            | none => none
            | some (v, r₄) =>
              match parseMembers fuel r₄ with
              | none => none
              | some (kvs, r₅) => some ((String.mk k, v) :: kvs, r₅)
          | _ => none
      | _ => none
    | _ => none

end

/-- `JSON.parse(s)` (restricted to integer numerals, see the module comment):
one complete value, surrounded only by whitespace; `none` models
`JSON.parse` throwing a `SyntaxError`. -/
def Json.parse (s : String) : Option Json :=
  match parseVal (s.length + 1) s.data with
  | some (v, rest) => if (skipWs rest).isEmpty then some v else none
  | none => none

/-! ## The document store -/

/-- A failure of `fs.readFile`, by `err.code`: `ENOENT` (no such file) or any
other I/O error code (`EACCES`, …). -/
inductive FsError where
  | enoent : FsError
  | other : String → FsError
deriving DecidableEq

/-- `readJson(filePath, fallbackValue)` (src/server.js:89-97).  The input is
the outcome of `fs.readFile`; a parse failure models `JSON.parse` throwing
`SyntaxError`.  A missing file or unparseable contents yield the fallback;
any other read error is rethrown. -/
def readJson (file : Except FsError String) (fallbackValue : Json) : Except FsError Json :=
  match file with
  | .ok raw =>
    match Json.parse raw with
    | some v => .ok v
    | none => .ok fallbackValue
  | .error .enoent => .ok fallbackValue
  | .error e => .error e

/-! ## Round-trip: `JSON.parse` reads back what `JSON.stringify` wrote -/

theorem skipWs_cons_of_ws {c : Char} (h : isWsChar c = true) (cs : List Char) :
    skipWs (c :: cs) = skipWs cs := by
  simp [skipWs, h]

theorem skipWs_cons_of_not_ws {c : Char} (h : isWsChar c = false) (cs : List Char) :
    skipWs (c :: cs) = c :: cs := by
  simp [skipWs, h]

theorem skipWs_replicate_space (m : Nat) (cs : List Char) :
    skipWs (List.replicate m ' ' ++ cs) = skipWs cs := by
  induction m with
  | zero => simp
  | succ m ih => simpa [skipWs] using ih

theorem skipWs_indent_append (n : Nat) (cs : List Char) :
    skipWs (indentChars n ++ cs) = skipWs cs :=
  skipWs_replicate_space (2 * n) cs

theorem digitChar_isDigit {d : Nat} (h : d < 10) : (Nat.digitChar d).isDigit = true := by
  interval_cases d <;> decide

theorem digitChar_toNat {d : Nat} (h : d < 10) : (Nat.digitChar d).toNat = 48 + d := by
  interval_cases d <;> decide

theorem natDigits_ne_nil (n : Nat) : natDigits n ≠ [] := by
  unfold natDigits
  split <;> simp

theorem natDigits_all_digit (n : Nat) : ∀ c ∈ natDigits n, c.isDigit = true := by
  induction n using Nat.strong_induction_on with
  | _ n ih =>
    unfold natDigits
    split
    · rename_i h
      intro c hc
      have : c = Nat.digitChar n := by simpa using hc
      subst this
      exact digitChar_isDigit h
    · rename_i h
      intro c hc
      rcases List.mem_append.mp hc with h1 | h1
      · exact ih (n / 10) (Nat.div_lt_self (by omega) (by norm_num)) c h1
      · have : c = Nat.digitChar (n % 10) := by simpa using h1
        subst this
        exact digitChar_isDigit (Nat.mod_lt _ (by norm_num))

theorem natDigits_foldl (n : Nat) :
    (natDigits n).foldl (fun a c => 10 * a + (c.toNat - 48)) 0 = n := by
  induction n using Nat.strong_induction_on with
  | _ n ih =>
    unfold natDigits
    split
    · rename_i h
      simp [digitChar_toNat h]
    · rename_i h
      rw [List.foldl_append]
      rw [ih (n / 10) (Nat.div_lt_self (by omega) (by norm_num))]
      simp [digitChar_toNat (Nat.mod_lt n (show 0 < 10 by norm_num))]
      omega

/-- Whether the input does not begin with a decimal digit — the guard under
which a printed numeral is read back whole. -/
def noDigitStart : List Char → Prop
  | [] => True
  | c :: _ => c.isDigit = false

theorem takeWhile_append_of_all {p : Char → Bool} {l rest : List Char}
    (hl : ∀ c ∈ l, p c = true) (hr : ∀ c t, rest = c :: t → p c = false) :
    (l ++ rest).takeWhile p = l ∧ (l ++ rest).dropWhile p = rest := by
  induction l with
  | nil =>
    cases rest with
    | nil => simp
    | cons c t => simp [List.takeWhile_cons, List.dropWhile_cons, hr c t rfl]
  | cons c l ih =>
    have hc : p c = true := hl c (by simp)
    have := ih (fun d hd => hl d (by simp [hd]))
    simp [List.takeWhile_cons, List.dropWhile_cons, hc, this.1, this.2]

theorem parseDigits_natDigits (n : Nat) {rest : List Char} (h : noDigitStart rest) :
    parseDigits (natDigits n ++ rest) = some (n, rest) := by
  have hr : ∀ c t, rest = c :: t → c.isDigit = false := by
    intro c t ht
    rw [ht] at h
    exact h
  obtain ⟨h1, h2⟩ := takeWhile_append_of_all (natDigits_all_digit n) hr
  simp only [parseDigits, h1, h2, List.isEmpty_iff]
  simp [natDigits_ne_nil, natDigits_foldl]

theorem natDigits_head_digit {n : Nat} {c : Char} {t : List Char}
    (h : natDigits n = c :: t) : c.isDigit = true :=
  natDigits_all_digit n c (h ▸ List.mem_cons_self c t)

theorem parseNumber_intDigits (i : Int) {rest : List Char} (h : noDigitStart rest) :
    parseNumber (intDigits i ++ rest) = some (.num i, rest) := by
  by_cases hi : i < 0
  · simp only [intDigits, if_pos hi, List.cons_append, parseNumber, if_pos rfl]
    rw [parseDigits_natDigits i.natAbs h]
    have hn : -((i.natAbs : Nat) : Int) = i := by omega
    simp only [Option.map_some']
    rw [hn]
    simp
  · simp only [intDigits, if_neg hi]
    obtain ⟨c, t, hct⟩ : ∃ c t, natDigits i.toNat = c :: t := by
      cases hnd : natDigits i.toNat with
      | nil => exact absurd hnd (natDigits_ne_nil _)
      | cons c t => exact ⟨c, t, rfl⟩
    have hcd : c.isDigit = true := natDigits_head_digit hct
    have hcm : c ≠ '-' := by
      intro hc
      rw [hc] at hcd
      exact absurd hcd (by decide)
    rw [hct]
    simp only [List.cons_append, parseNumber, if_neg hcm]
    rw [← List.cons_append, ← hct, parseDigits_natDigits i.toNat h]
    have hn : ((i.toNat : Nat) : Int) = i := by omega
    simp [hn]

theorem hexVal?_digitChar {m : Nat} (h : m < 16) : hexVal? (Nat.digitChar m) = some m := by
  interval_cases m <;> decide

theorem parseStrBody_escList (cs : List Char) (rest : List Char) :
    parseStrBody (escList cs ++ ('"' :: rest)) = some (cs, rest) := by
  induction cs with
  | nil =>
    rw [show escList [] ++ ('"' :: rest) = '"' :: rest by simp [escList]]
    rw [parseStrBody.eq_def]
    simp
  | cons c cs ih =>
    have hstep : escList (c :: cs) ++ ('"' :: rest) =
        escChar c ++ (escList cs ++ ('"' :: rest)) := by
      simp [escList]
    rw [hstep]
    unfold escChar
    by_cases h1 : c = '"'
    · subst h1
      simp only [if_pos rfl, List.cons_append, List.nil_append]
      rw [parseStrBody.eq_def]
      simp [unescape?, ih]
    · rw [if_neg h1]
      by_cases h2 : c = '\\'
      · subst h2
        simp only [if_pos rfl, List.cons_append, List.nil_append]
        rw [parseStrBody.eq_def]
        simp [unescape?, ih]
      · rw [if_neg h2]
        by_cases h3 : c = '\n'
        · subst h3
          simp only [if_pos rfl, List.cons_append, List.nil_append]
          rw [parseStrBody.eq_def]
          simp [unescape?, ih]
        · rw [if_neg h3]
          by_cases h4 : c = '\r'
          · subst h4
            simp only [if_pos rfl, List.cons_append, List.nil_append]
            rw [parseStrBody.eq_def]
            simp [unescape?, ih]
          · rw [if_neg h4]
            by_cases h5 : c = '\t'
            · subst h5
              simp only [if_pos rfl, List.cons_append, List.nil_append]
              rw [parseStrBody.eq_def]
              simp [unescape?, ih]
            · rw [if_neg h5]
              by_cases h6 : c = Char.ofNat 8
              · subst h6
                simp only [if_pos rfl, List.cons_append, List.nil_append]
                rw [parseStrBody.eq_def]
                simp [unescape?, ih]
              · rw [if_neg h6]
                by_cases h7 : c = Char.ofNat 12
                · subst h7
                  simp only [if_pos rfl, List.cons_append, List.nil_append]
                  rw [parseStrBody.eq_def]
                  simp [unescape?, ih]
                · rw [if_neg h7]
                  by_cases h8 : c.toNat < 32
                  · rw [if_pos h8]
                    simp only [List.cons_append, List.nil_append]
                    rw [parseStrBody.eq_def]
                    have e1 : hexVal? '0' = some 0 := by decide
                    have e2 : hexVal? (Nat.digitChar (c.toNat / 16)) = some (c.toNat / 16) :=
                      hexVal?_digitChar (by omega)
                    have e3 : hexVal? (Nat.digitChar (c.toNat % 16)) = some (c.toNat % 16) :=
                      hexVal?_digitChar (Nat.mod_lt _ (by norm_num))
                    simp [e1, e2, e3, ih]
                    rw [show 16 * (c.toNat / 16) + c.toNat % 16 = c.toNat from by omega,
                      Char.ofNat_toNat]
                  · rw [if_neg h8]
                    simp only [List.cons_append, List.nil_append]
                    rw [parseStrBody.eq_def]
                    simp [h1, h2, h8, ih]

mutual

/-- Fuel sufficient for `parseVal` to read back a printed value. -/
def jNeed : Json → Nat
  | .null => 1
  | .bool _ => 1
  | .num _ => 1
  | .str _ => 1
  | .arr [] => 1
  | .arr (x :: xs) => 1 + max (jNeed x) (iNeed xs)
  | .obj [] => 1
  | .obj ((_, v) :: kvs) => 1 + max (jNeed v) (mNeed kvs)

/-- Fuel sufficient for `parseItems` on printed trailing elements. -/
def iNeed : List Json → Nat
  | [] => 1
  | x :: xs => 1 + max (jNeed x) (iNeed xs)

/-- Fuel sufficient for `parseMembers` on printed trailing members. -/
def mNeed : List (String × Json) → Nat
  | [] => 1
  | (_, v) :: kvs => 1 + max (jNeed v) (mNeed kvs)

end

theorem skipWs_all_ws_append {l₁ : List Char} (h : ∀ c ∈ l₁, isWsChar c = true)
    (l₂ : List Char) : skipWs (l₁ ++ l₂) = skipWs l₂ := by
  induction l₁ with
  | nil => simp
  | cons c l ih =>
    rw [List.cons_append, skipWs_cons_of_ws (h c (by simp))]
    exact ih (fun d hd => h d (by simp [hd]))

theorem parseVal_ws_append {l₁ : List Char} (h : ∀ c ∈ l₁, isWsChar c = true)
    (fuel : Nat) (l₂ : List Char) : parseVal fuel (l₁ ++ l₂) = parseVal fuel l₂ := by
  cases fuel with
  | zero => rfl
  | succ fuel =>
    unfold parseVal
    rw [skipWs_all_ws_append h]

theorem all_ws_break (n : Nat) : ∀ c ∈ '\n' :: indentChars n, isWsChar c = true := by
  intro c hc
  rcases List.mem_cons.mp hc with h | h
  · subst h; rfl
  · have : c = ' ' := List.eq_of_mem_replicate h
    subst this; rfl

theorem noDigitStart_printItems (xs : List Json) (i : Nat) (l : List Char) :
    noDigitStart (printItems xs i ++ '\n' :: l) := by
  cases xs with
  | nil => simp [printItems, noDigitStart]
  | cons y ys =>
    rw [printItems]
    simp [noDigitStart]

theorem noDigitStart_printMembers (kvs : List (String × Json)) (i : Nat) (l : List Char) :
    noDigitStart (printMembers kvs i ++ '\n' :: l) := by
  cases kvs with
  | nil => simp [printMembers, noDigitStart]
  | cons kv kvs =>
    obtain ⟨k, v⟩ := kv
    rw [printMembers]
    simp [noDigitStart]

theorem numStart_facts {c : Char} (h : c = '-' ∨ c.isDigit = true) :
    isWsChar c = false ∧ c ≠ 'n' ∧ c ≠ 't' ∧ c ≠ 'f' ∧ c ≠ '"' ∧ c ≠ '[' ∧ c ≠ '{' ∧
      c ≠ ']' := by
  rcases h with h | h
  · subst h; decide
  · refine ⟨?_, ?_, ?_, ?_, ?_, ?_, ?_, ?_⟩
    · cases hw : isWsChar c with
      | false => rfl
      | true =>
        exfalso
        have : ((c = ' ' ∨ c = '\n') ∨ c = '\t') ∨ c = '\r' := by
          simpa [isWsChar] using hw
        rcases this with ((h' | h') | h') | h' <;> (subst h'; exact absurd h (by decide))
    all_goals (intro h'; subst h'; exact absurd h (by decide))

theorem intDigits_head (i : Int) :
    ∃ c t, intDigits i = c :: t ∧ (c = '-' ∨ c.isDigit = true) := by
  unfold intDigits
  split
  · exact ⟨'-', natDigits i.natAbs, rfl, Or.inl rfl⟩
  · cases hnd : natDigits i.toNat with
    | nil => exact absurd hnd (natDigits_ne_nil _)
    | cons c t => exact ⟨c, t, rfl, Or.inr (natDigits_head_digit hnd)⟩

/-- Every printed value begins with a non-whitespace character other
than `]`. -/
theorem printVal_head (v : Json) (ind : Nat) :
    ∃ c t, printVal v ind = c :: t ∧ isWsChar c = false ∧ c ≠ ']' := by
  cases v with
  | null => exact ⟨'n', _, by rw [printVal], by decide, by decide⟩
  | bool b =>
    cases b with
    | true => exact ⟨'t', _, by rw [printVal], by decide, by decide⟩
    | false => exact ⟨'f', _, by rw [printVal], by decide, by decide⟩
  | num i =>
    obtain ⟨c, t, hct, hc⟩ := intDigits_head i
    obtain ⟨hws, _, _, _, _, _, _, hrb⟩ := numStart_facts hc
    exact ⟨c, t, by rw [printVal, hct], hws, hrb⟩
  | str s => exact ⟨'"', _, by rw [printVal, printStr], by decide, by decide⟩
  | arr xs =>
    cases xs with
    | nil => exact ⟨'[', _, by rw [printVal], by decide, by decide⟩
    | cons x xs => exact ⟨'[', _, by rw [printVal], by decide, by decide⟩
  | obj kvs =>
    cases kvs with
    | nil => exact ⟨'{', _, by rw [printVal], by decide, by decide⟩
    | cons kv kvs =>
      obtain ⟨k, v⟩ := kv
      exact ⟨'{', _, by rw [printVal], by decide, by decide⟩

theorem jNeed_pos : ∀ v, 1 ≤ jNeed v := by
  intro v
  cases v with
  | null => simp [jNeed]
  | bool b => simp [jNeed]
  | num i => simp [jNeed]
  | str s => simp [jNeed]
  | arr xs => cases xs <;> simp [jNeed]
  | obj kvs =>
    cases kvs with
    | nil => simp [jNeed]
    | cons kv kvs =>
      obtain ⟨k, w⟩ := kv
      simp [jNeed]

theorem iNeed_pos : ∀ xs, 1 ≤ iNeed xs := by
  intro xs
  cases xs <;> simp [iNeed]

theorem mNeed_pos : ∀ kvs, 1 ≤ mNeed kvs := by
  intro kvs
  cases kvs with
  | nil => simp [mNeed]
  | cons kv kvs =>
    obtain ⟨k, w⟩ := kv
    simp [mNeed]

theorem ws_single : ∀ c ∈ [' '], isWsChar c = true := by decide

theorem skipWs_break (n : Nat) (l : List Char) :
    skipWs ('\n' :: (indentChars n ++ l)) = skipWs l := by
  rw [show '\n' :: (indentChars n ++ l) = ('\n' :: indentChars n) ++ l by simp]
  exact skipWs_all_ws_append (all_ws_break n) l

theorem parseVal_break (fuel n : Nat) (l : List Char) :
    parseVal fuel ('\n' :: (indentChars n ++ l)) = parseVal fuel l := by
  rw [show '\n' :: (indentChars n ++ l) = ('\n' :: indentChars n) ++ l by simp]
  exact parseVal_ws_append (all_ws_break n) fuel l

theorem parseVal_space (fuel : Nat) (l : List Char) :
    parseVal fuel (' ' :: l) = parseVal fuel l := by
  rw [show (' ' :: l) = [' '] ++ l by simp]
  exact parseVal_ws_append ws_single fuel l

/-- Completeness of the parser on printed output: with enough fuel, a printed
value (followed by anything that does not extend a numeral) is read back
exactly; likewise for printed element and member tails. -/
theorem roundtrip_aux (fuel : Nat) :
    (∀ v, jNeed v ≤ fuel → ∀ ind rest, noDigitStart rest →
      parseVal fuel (printVal v ind ++ rest) = some (v, rest)) ∧
    (∀ xs, iNeed xs ≤ fuel → ∀ ind rest,
      parseItems fuel (printItems xs (ind + 1) ++ '\n' :: (indentChars ind ++ (']' :: rest))) =
        some (xs, rest)) ∧
    (∀ kvs, mNeed kvs ≤ fuel → ∀ ind rest,
      parseMembers fuel
          (printMembers kvs (ind + 1) ++ '\n' :: (indentChars ind ++ ('}' :: rest))) =
        some (kvs, rest)) := by
  induction fuel with
  | zero =>
    refine ⟨fun v hv => absurd (le_trans (jNeed_pos v) hv) (by norm_num),
      fun xs hxs => absurd (le_trans (iNeed_pos xs) hxs) (by norm_num),
      fun kvs hkvs => absurd (le_trans (mNeed_pos kvs) hkvs) (by norm_num)⟩
  | succ fuel ih =>
    obtain ⟨ihV, ihI, ihM⟩ := ih
    refine ⟨?_, ?_, ?_⟩
    · -- values
      intro v hv ind rest hrest
      cases v with
      | null =>
        rw [printVal]
        rw [show (['n', 'u', 'l', 'l'] : List Char) ++ rest = 'n' :: 'u' :: 'l' :: 'l' :: rest
          by simp]
        unfold parseVal
        simp [skipWs, isWsChar]
      | bool b =>
        cases b with
        | true =>
          rw [printVal]
          rw [show (['t', 'r', 'u', 'e'] : List Char) ++ rest = 't' :: 'r' :: 'u' :: 'e' :: rest
            by simp]
          unfold parseVal
          simp [skipWs, isWsChar]
        | false =>
          rw [printVal]
          rw [show (['f', 'a', 'l', 's', 'e'] : List Char) ++ rest =
            'f' :: 'a' :: 'l' :: 's' :: 'e' :: rest by simp]
          unfold parseVal
          simp [skipWs, isWsChar]
      | num i =>
        obtain ⟨c, t, hct, hc⟩ := intDigits_head i
        obtain ⟨hws, hn, ht, hf, hq, hlb, hlc, _⟩ := numStart_facts hc
        rw [printVal, hct, List.cons_append]
        unfold parseVal
        rw [skipWs_cons_of_not_ws hws]
        simp only [if_neg hn, if_neg ht, if_neg hf, if_neg hq, if_neg hlb, if_neg hlc,
          if_pos hc, if_true]
        rw [← List.cons_append, ← hct]
        exact parseNumber_intDigits i hrest
      | str s =>
        obtain ⟨d⟩ := s
        rw [printVal, printStr]
        rw [show ('"' :: (escList (String.mk d).data ++ ['"'])) ++ rest
              = '"' :: (escList d ++ ('"' :: rest)) by simp]
        unfold parseVal
        rw [skipWs_cons_of_not_ws (by decide)]
        simp [parseStrBody_escList]
      | arr xs =>
        cases xs with
        | nil =>
          rw [printVal]
          rw [show (['[', ']'] : List Char) ++ rest = '[' :: ']' :: rest by simp]
          unfold parseVal
          simp [skipWs, isWsChar]
        | cons x xs =>
          have hmax : max (jNeed x) (iNeed xs) ≤ fuel := by rw [jNeed] at hv; omega
          have hx : jNeed x ≤ fuel := le_trans (le_max_left _ _) hmax
          have hxs : iNeed xs ≤ fuel := le_trans (le_max_right _ _) hmax
          rw [printVal]
          simp only [List.cons_append, List.append_assoc, List.singleton_append,
            List.nil_append]
          unfold parseVal
          rw [skipWs_cons_of_not_ws (by decide)]
          simp only [if_neg (show ¬('[' : Char) = 'n' by decide),
            if_neg (show ¬('[' : Char) = 't' by decide),
            if_neg (show ¬('[' : Char) = 'f' by decide),
            if_neg (show ¬('[' : Char) = '"' by decide),
            if_pos (rfl : ('[' : Char) = '['), if_true]
          rw [skipWs_break]
          obtain ⟨c, t, hct, hws, hcr⟩ := printVal_head x (ind + 1)
          rw [hct, List.cons_append, skipWs_cons_of_not_ws hws]
          split
          · rename_i r heq
            cases heq
            exact absurd rfl hcr
          · rw [← List.cons_append, ← hct]
            rw [ihV x hx (ind + 1)
              (printItems xs (ind + 1) ++ '\n' :: (indentChars ind ++ (']' :: rest)))
              (noDigitStart_printItems xs (ind + 1) (indentChars ind ++ (']' :: rest)))]
            simp only [ihI xs hxs ind rest]
      | obj kvs =>
        cases kvs with
        | nil =>
          rw [printVal]
          rw [show (['{', '}'] : List Char) ++ rest = '{' :: '}' :: rest by simp]
          unfold parseVal
          simp [skipWs, isWsChar]
        | cons kv kvs =>
          obtain ⟨k, v⟩ := kv
          have hmax : max (jNeed v) (mNeed kvs) ≤ fuel := by rw [jNeed] at hv; omega
          have hv' : jNeed v ≤ fuel := le_trans (le_max_left _ _) hmax
          have hkvs : mNeed kvs ≤ fuel := le_trans (le_max_right _ _) hmax
          rw [printVal, printStr]
          simp only [List.cons_append, List.append_assoc, List.singleton_append,
            List.nil_append]
          unfold parseVal
          rw [skipWs_cons_of_not_ws (by decide)]
          simp only [if_neg (show ¬('{' : Char) = 'n' by decide),
            if_neg (show ¬('{' : Char) = 't' by decide),
            if_neg (show ¬('{' : Char) = 'f' by decide),
            if_neg (show ¬('{' : Char) = '"' by decide),
            if_neg (show ¬('{' : Char) = '[' by decide),
            if_pos (rfl : ('{' : Char) = '{'), if_true]
          rw [skipWs_break]
          rw [skipWs_cons_of_not_ws (by decide)]
          split
          · rename_i r heq
            injection heq with h1 h2
            exact absurd h1 (by decide)
          · rename_i r heq
            injection heq with h1 h2
            subst h2
            rw [parseStrBody_escList]
            simp only [skipWs_cons_of_not_ws (show isWsChar ':' = false by rfl),
              parseVal_space]
            rw [ihV v hv' (ind + 1)
              (printMembers kvs (ind + 1) ++ '\n' :: (indentChars ind ++ ('}' :: rest)))
              (noDigitStart_printMembers kvs (ind + 1) (indentChars ind ++ ('}' :: rest)))]
            simp only [ihM kvs hkvs ind rest]
          · rename_i hne₁ hne₂
            exact absurd rfl (hne₂ _)
    · -- trailing array elements
      intro xs hxs ind rest
      cases xs with
      | nil =>
        rw [printItems]
        simp only [List.nil_append]
        unfold parseItems
        rw [skipWs_break, skipWs_cons_of_not_ws (by decide)]
        rfl
      | cons y ys =>
        have hmax : max (jNeed y) (iNeed ys) ≤ fuel := by rw [iNeed] at hxs; omega
        have hy : jNeed y ≤ fuel := le_trans (le_max_left _ _) hmax
        have hys : iNeed ys ≤ fuel := le_trans (le_max_right _ _) hmax
        rw [printItems]
        simp only [List.cons_append, List.append_assoc, List.singleton_append,
          List.nil_append]
        unfold parseItems
        rw [skipWs_cons_of_not_ws (by decide)]
        split
        · rename_i r heq
          injection heq with h1 h2
          exact absurd h1 (by decide)
        · rename_i r heq
          injection heq with h1 h2
          subst h2
          rw [parseVal_break]
          rw [ihV y hy (ind + 1)
            (printItems ys (ind + 1) ++ '\n' :: (indentChars ind ++ (']' :: rest)))
            (noDigitStart_printItems ys (ind + 1) (indentChars ind ++ (']' :: rest)))]
          simp only [ihI ys hys ind rest]
        · rename_i hne₁ hne₂
          exact absurd rfl (hne₂ _)
    · -- trailing object members
      intro kvs hkvs ind rest
      cases kvs with
      | nil =>
        rw [printMembers]
        simp only [List.nil_append]
        unfold parseMembers
        rw [skipWs_break, skipWs_cons_of_not_ws (by decide)]
        rfl
      | cons kv kvs =>
        obtain ⟨k, v⟩ := kv
        have hmax : max (jNeed v) (mNeed kvs) ≤ fuel := by rw [mNeed] at hkvs; omega
        have hv' : jNeed v ≤ fuel := le_trans (le_max_left _ _) hmax
        have hkvs' : mNeed kvs ≤ fuel := le_trans (le_max_right _ _) hmax
        rw [printMembers, printStr]
        simp only [List.cons_append, List.append_assoc, List.singleton_append,
          List.nil_append]
        unfold parseMembers
        rw [skipWs_cons_of_not_ws (by decide)]
        split
        · rename_i r heq
          injection heq with h1 h2
          exact absurd h1 (by decide)
        · rename_i r heq
          injection heq with h1 h2
          subst h2
          rw [skipWs_break]
          rw [skipWs_cons_of_not_ws (by decide)]
          split
          · rename_i r₁ heq₁
            injection heq₁ with h3 h4
            subst h4
            rw [parseStrBody_escList]
            simp only [skipWs_cons_of_not_ws (show isWsChar ':' = false by rfl),
              parseVal_space]
            rw [ihV v hv' (ind + 1)
              (printMembers kvs (ind + 1) ++ '\n' :: (indentChars ind ++ ('}' :: rest)))
              (noDigitStart_printMembers kvs (ind + 1) (indentChars ind ++ ('}' :: rest)))]
            simp only [ihM kvs hkvs' ind rest]
          · rename_i hne
            exact absurd rfl (hne _)
        · rename_i hne₁ hne₂
          exact absurd rfl (hne₂ _)

/-- The fuel needed to re-read a printed value is within the printed
length plus one, jointly with the element/member forms. -/
theorem need_le_printLen_aux (n : Nat) :
    (∀ v : Json, sizeOf v ≤ n → ∀ ind, jNeed v ≤ (printVal v ind).length + 1) ∧
    (∀ xs : List Json, sizeOf xs ≤ n → ∀ ind, iNeed xs ≤ (printItems xs ind).length + 1) ∧
    (∀ kvs : List (String × Json), sizeOf kvs ≤ n → ∀ ind,
      mNeed kvs ≤ (printMembers kvs ind).length + 1) := by
  induction n using Nat.strong_induction_on with
  | _ n IH =>
    refine ⟨?_, ?_, ?_⟩
    · intro v hn ind
      cases v with
      | null => rw [jNeed, printVal]; omega
      | bool b => cases b <;> (rw [jNeed, printVal]; simp)
      | num i => rw [jNeed, printVal]; omega
      | str s => rw [jNeed, printVal]; omega
      | arr xs =>
        cases xs with
        | nil => rw [jNeed, printVal]; omega
        | cons x xs =>
          have hx : sizeOf x < n := by
            have : sizeOf x < sizeOf (Json.arr (x :: xs)) := by simp; omega
            omega
          have hxs : sizeOf xs < n := by
            have : sizeOf xs < sizeOf (Json.arr (x :: xs)) := by simp; omega
            omega
          have ihx := (IH (sizeOf x) hx).1 x le_rfl (ind + 1)
          have ihxs := (IH (sizeOf xs) hxs).2.1 xs le_rfl (ind + 1)
          rw [jNeed, printVal]
          simp only [List.length_cons, List.length_append, indentChars,
            List.length_replicate]
          omega
      | obj kvs =>
        cases kvs with
        | nil => rw [jNeed, printVal]; omega
        | cons kv kvs =>
          obtain ⟨k, v⟩ := kv
          have hv : sizeOf v < n := by
            have : sizeOf v < sizeOf (Json.obj ((k, v) :: kvs)) := by simp; omega
            omega
          have hkvs : sizeOf kvs < n := by
            have : sizeOf kvs < sizeOf (Json.obj ((k, v) :: kvs)) := by simp; omega
            omega
          have ihv := (IH (sizeOf v) hv).1 v le_rfl (ind + 1)
          have ihkvs := (IH (sizeOf kvs) hkvs).2.2 kvs le_rfl (ind + 1)
          rw [jNeed, printVal]
          simp only [List.length_cons, List.length_append, indentChars,
            List.length_replicate]
          omega
    · intro xs hn ind
      cases xs with
      | nil => rw [iNeed, printItems]; omega
      | cons x xs =>
        have hx : sizeOf x < n := by
          have : sizeOf x < sizeOf (x :: xs) := by simp; omega
          omega
        have hxs : sizeOf xs < n := by
          have : sizeOf xs < sizeOf (x :: xs) := by simp
          omega
        have ihx := (IH (sizeOf x) hx).1 x le_rfl ind
        have ihxs := (IH (sizeOf xs) hxs).2.1 xs le_rfl ind
        rw [iNeed, printItems]
        simp only [List.length_cons, List.length_append, indentChars,
          List.length_replicate]
        omega
    · intro kvs hn ind
      cases kvs with
      | nil => rw [mNeed, printMembers]; omega
      | cons kv kvs =>
        obtain ⟨k, v⟩ := kv
        have hv : sizeOf v < n := by
          have : sizeOf v < sizeOf ((k, v) :: kvs) := by simp; omega
          omega
        have hkvs : sizeOf kvs < n := by
          have : sizeOf kvs < sizeOf ((k, v) :: kvs) := by simp
          omega
        have ihv := (IH (sizeOf v) hv).1 v le_rfl ind
        have ihkvs := (IH (sizeOf kvs) hkvs).2.2 kvs le_rfl ind
        rw [mNeed, printMembers]
        simp only [List.length_cons, List.length_append, indentChars,
          List.length_replicate]
        omega

/-- Round-trip at the file level: the exact contents `writeJsonAtomic` writes
for `v` parse back to `v`. -/
theorem parse_writtenContent (v : Json) : Json.parse (writtenContent v) = some v := by
  have hdata : (writtenContent v).data = printVal v 0 ++ ['\n'] := rfl
  have hlen : (writtenContent v).length = (printVal v 0).length + 1 := by
    have : (writtenContent v).length = (writtenContent v).data.length := rfl
    rw [this, hdata]
    simp
  have hneed : jNeed v ≤ (writtenContent v).length + 1 := by
    have := (need_le_printLen_aux (sizeOf v)).1 v le_rfl 0
    omega
  have hmain := (roundtrip_aux ((writtenContent v).length + 1)).1 v hneed 0 ['\n']
    (by rw [noDigitStart]; decide)
  rw [Json.parse, hdata, hmain]
  rfl

/-! ## The write serialization queue (src/server.js:99-109)

`writeJsonAtomic` chains every write onto a module-level promise:
```js
let writeQueue = Promise.resolve();
function writeJsonAtomic(filePath, value) {
  writeQueue = writeQueue.then(async () => { …write tmp, rename… });
  return writeQueue;
}
```
The embedding models the settled state of `writeQueue` plus the target file
for one path.  `p.then(f)` on a fulfilled promise runs `f`; on a REJECTED
promise it skips `f` and the returned promise rejects with the same reason —
there is no rejection handler anywhere in `writeJsonAtomic`, so that is the
complete semantics of one enqueue.  A failing filesystem operation (write or
rename) leaves the target file unchanged: the target is only replaced by a
successful rename. -/

/-- One queued write: the value to write, and whether the underlying
filesystem write/rename rejects (`some code`) or succeeds (`none`). -/
structure WriteOp where
  value : Json
  fsError : Option String

/-- What the caller that enqueued an operation observes once the returned
promise settles. -/
inductive Outcome where
  | resolved : Outcome
  | rejected : String → Outcome
deriving DecidableEq

/-- The module state: the settled state of `writeQueue` (`none` = last link
fulfilled, `some e` = last link rejected with `e`) and the current contents
of the target file. -/
structure QState where
  chain : Option String
  file : Option String

/-- One call of `writeJsonAtomic`, from the state in which its chained
promise runs (or is skipped): returns the new state, the outcome the caller
awaits, and whether the queued operation actually executed. -/
def enqueueStep (s : QState) (op : WriteOp) : QState × Outcome × Bool :=
  match s.chain with
  | some e => (⟨some e, s.file⟩, .rejected e, false)
  | none =>
    match op.fsError with
    | some e => (⟨some e, s.file⟩, .rejected e, true)
    | none => (⟨none, some (writtenContent op.value)⟩, .resolved, true)

/-- A sequence of `writeJsonAtomic` calls in enqueue order: final state, the
outcome observed by each caller (in enqueue order), and the trace of writes
that actually executed. -/
def runQueue : QState → List WriteOp → QState × List Outcome × List Json
  | s, [] => (s, [], [])
  | s, op :: ops =>
    let step := enqueueStep s op
    let rest := runQueue step.1 ops
    (rest.1, step.2.1 :: rest.2.1, (if step.2.2 then [op.value] else []) ++ rest.2.2)

/-! ## The submission log (src/server.js:111-127) -/

/-- One submission record, as built by `POST /api/contact`
(src/server.js:1175-1183). -/
structure Submission where
  id : String
  createdAt : String
  name : String
  email : String
  subject : String
  message : String
  status : String
deriving DecidableEq

/-- `appendSubmission(submission)` (src/server.js:111-118) on the decoded
log: push the record, then `splice(0, length - 250)` drops the oldest
records from the front when the bound is exceeded. -/
def appendSubmission (current : List Submission) (submission : Submission) :
    List Submission :=
  let next := current ++ [submission]
  if next.length > 250 then next.drop (next.length - 250) else next

/-- The fields `patchSubmission` may shallow-merge into a record
(`Object.assign({}, next[idx], patch)`); `none` = field absent from the
patch object.  The only patch the server builds is `{ status: … }`. -/
structure SubPatch where
  id : Option String := none
  createdAt : Option String := none
  name : Option String := none
  email : Option String := none
  subject : Option String := none
  message : Option String := none
  status : Option String := none
deriving DecidableEq

/-- `Object.assign({}, s, p)`: fields present in the patch overwrite, all
others are kept. -/
def applyPatch (s : Submission) (p : SubPatch) : Submission where
  id := p.id.getD s.id
  createdAt := p.createdAt.getD s.createdAt
  name := p.name.getD s.name
  email := p.email.getD s.email
  subject := p.subject.getD s.subject
  message := p.message.getD s.message
  status := p.status.getD s.status

/-- `patchSubmission(id, patch)` (src/server.js:120-127) on the decoded log:
`findIndex` locates the first record with the given id and only that record
is replaced by the merge; if none matches the function returns with the log
untouched (`if (idx === -1) return;`). -/
def patchSubmission : List Submission → String → SubPatch → List Submission
  | [], _, _ => []
  | s :: rest, pid, p =>
    if s.id = pid then applyPatch s p :: rest
    else s :: patchSubmission rest pid p

/-! ## Normalization helpers (src/server.js:238-297) -/

/-- The whitespace removed by JS `String.prototype.trim` (the characters that
occur in form input: space, tab, LF, CR, FF, VT; the further Unicode space
characters JS also trims do not occur in any modelled check). -/
def isJsWs (c : Char) : Bool :=
  c = ' ' || c = '\t' || c = '\n' || c = '\r' || c = Char.ofNat 12 || c = Char.ofNat 11

/-- JS `String.prototype.trim`. -/
def jsTrim (s : String) : String :=
  String.mk (((s.data.dropWhile isJsWs).reverse.dropWhile isJsWs).reverse)

/-- A value of a form field as delivered by the body parser: absent, a single
string, or repeated (an array of strings). -/
inductive FormValue where
  | absent : FormValue
  | one : String → FormValue
  | many : List String → FormValue

/-- `normalizeArray(v)` (src/server.js:242-245): `null`/`undefined` become
`[]`, an array is kept, anything else is wrapped. -/
def normalizeArray : FormValue → List String
  | .absent => []
  | .one s => [s]
  | .many xs => xs

/-- `parseEnabled(v)` (src/server.js:247-250): each submitted value is
stringified and trimmed, and the flag is whether any equals `"1"`. -/
def parseEnabled (v : FormValue) : Bool :=
  ((normalizeArray v).map jsTrim).contains "1"

/-- JS `String.prototype.split` with a one-character separator, over the
character list: `"a|b|c" → ["a","b","c"]`, keeping empty pieces, `"" → [""]`.
(Defined structurally so that concrete inputs evaluate.) -/
def splitChars (sep : Char) : List Char → List (List Char)
  | [] => [[]]
  | c :: rest =>
    let r := splitChars sep rest
    if c = sep then [] :: r
    else
      match r with
      | [] => [[c]]
      | h :: t => (c :: h) :: t

/-- `s.split(sep)` for a one-character separator. -/
def strSplitOn (s : String) (sep : Char) : List String :=
  (splitChars sep s.data).map String.mk

/-- JS `Array.prototype.join(sep)`. -/
def joinSep (sep : String) : List String → String
  | [] => ""
  | [x] => x
  | x :: y :: xs => x ++ sep ++ joinSep sep (y :: xs)

/-- `splitLines(v, max)` (src/server.js:252-257): trim, split on newlines,
trim each line, drop empties, cap at `max` when a number was passed. -/
def splitLines (v : String) (max : Option Nat) : List String :=
  let raw := jsTrim v
  if raw = "" then []
  else
    let lines := ((strSplitOn raw '\n').map jsTrim).filter (fun l => l ≠ "")
    match max with
    | some m => lines.take m
    | none => lines

/-- `splitCsv(v, max)` (src/server.js:269-274). -/
def splitCsv (v : String) (max : Option Nat) : List String :=
  let raw := jsTrim v
  if raw = "" then []
  else
    let parts := ((strSplitOn raw ',').map jsTrim).filter (fun p => p ≠ "")
    match max with
    | some m => parts.take m
    | none => parts

/-- The record produced for one icon/label line. -/
structure IconLabel where
  icon : String
  label : String
deriving DecidableEq

/-- `parseIconLabelLines(v, max)` (src/server.js:286-297): split into lines,
split each line on EVERY `|` with each part trimmed, take the first part as
the icon, re-join the remaining parts with `" | "` (then trim) as the label,
and drop a line whose icon and label are both empty. -/
def parseIconLabelLines (v : String) (max : Option Nat) : List IconLabel :=
  (splitLines v max).filterMap (fun line =>
    let parts := (strSplitOn line '|').map jsTrim
    let icon := match parts with
      | [] => ""
      | p :: _ => p
    let label := jsTrim (joinSep " | " (parts.drop 1))
    if label = "" ∧ icon = "" then none else some ⟨icon, label⟩)

/-- Split a line at its FIRST `|`, keeping the remainder verbatim; `none`
when the line has no `|`. -/
def splitAtFirstBar : List Char → Option (List Char × List Char)
  | [] => none
  | c :: rest =>
    if c = '|' then some ([], rest)
    else (splitAtFirstBar rest).map (fun r => (c :: r.1, r.2))

/-- Modelled from the spec's words, for comparison with the code's
`parseIconLabelLines`: "each line further split on the first `|` into an icon
token and a label/text remainder (remainder may itself contain `|`); a line
with neither icon nor label is dropped."  The icon token and the remainder
are trimmed; the remainder is otherwise kept verbatim. -/
def parseIconLabelLinesSpec (v : String) (max : Option Nat) : List IconLabel :=
  (splitLines v max).filterMap (fun line =>
    match splitAtFirstBar line.data with
    | some r =>
      let icon := jsTrim (String.mk r.1)
      let label := jsTrim (String.mk r.2)
      if label = "" ∧ icon = "" then none else some ⟨icon, label⟩
    | none =>
      if line = "" then none else some ⟨line, ""⟩)

/-! ## JS object primitives over `Json` -/

/-- Property lookup on an object's field list (`o[k]`); `none` models
`undefined`. -/
def jLookup (kvs : List (String × Json)) (k : String) : Option Json :=
  match kvs.find? (fun p => p.1 = k) with
  | some p => some p.2
  | none => none

/-- Property assignment `o[k] = v`: an existing key keeps its position and is
overwritten, a new key is appended (JS insertion-order semantics). -/
def jSet : List (String × Json) → String → Json → List (String × Json)
  | [], k, v => [(k, v)]
  | (k', v') :: rest, k, v =>
    if k' = k then (k, v) :: rest else (k', v') :: jSet rest k v

/-- The own enumerable string-keyed properties a value contributes to
`Object.assign`: the fields of an object, nothing for `undefined`, `null`,
booleans and numbers.  (A JS string would contribute its characters; the
server never reaches `Object.assign` with a string.) -/
def getObjFields : Option Json → List (String × Json)
  | some (.obj kvs) => kvs
  | _ => []

/-- `Object.assign({}, old-fields, new-fields)`: keys of `old` keep their
positions, overwritten where `new` has the key; remaining keys of `new` are
appended in order. -/
def objAssign (old new : List (String × Json)) : List (String × Json) :=
  (old.map (fun p => (p.1, match jLookup new p.1 with
    | some w => w
    | none => p.2))) ++
    new.filter (fun q => (old.find? (fun p => p.1 = q.1)).isNone)

/-- JS truthiness of a JSON value. -/
def jsTruthy : Json → Bool
  | .null => false
  | .bool b => b
  | .num n => decide (n ≠ 0)
  | .str s => decide (s ≠ "")
  | .arr _ => true
  | .obj _ => true

/-! ## Admin route models

Each `app.post('/admin/…')` handler is modelled as a function from the parsed
request body and the current document (the result of
`readJson(SITE_JSON_PATH, null)`) to either the error carried by the redirect
query string, or the document handed to `writeJsonAtomic`.  CSRF/session
handling and the HTTP redirects themselves are out of scope (spec §1); an
`Except.error` result performs no write, exactly as the handlers return
before reaching `writeJsonAtomic`.  A free text field of the body is a
`String` (`String(req.body.x || '')` / `asTrimmedString` both stringify the
raw value first; an absent field is the empty string). -/

/-- `POST /admin/meta` (src/server.js:535-553).  Validation runs before the
document is read; on success `site.meta = Object.assign({}, site.meta,
{ title, description, ogImage })`. -/
structure MetaInput where
  title : String
  description : String
  ogImage : String

def adminMeta (b : MetaInput) (site : Json) : Except String Json :=
  let title := jsTrim b.title
  if title = "" then .error "Title+is+required"
  else if title.length > 120 then .error "Title+too+long"
  else
    let description := jsTrim b.description
    let ogImage := jsTrim b.ogImage
    if description.length > 240 then .error "Description+too+long"
    else if ogImage.length > 300 then .error "OG+image+URL+too+long"
    else
      match site with
      | .obj siteKvs =>
        let newMeta := objAssign (getObjFields (jLookup siteKvs "meta"))
          [("title", .str title), ("description", .str description),
            ("ogImage", .str ogImage)]
        .ok (.obj (jSet siteKvs "meta" (.obj newMeta)))
      | _ => .error "Missing+site.json"

/-- The body of `POST /admin/hero` (src/server.js:475-533). -/
structure HeroInput where
  enabled : FormValue
  greeting : String
  firstName : String
  lastName : String
  description : String
  scrollText : String
  titles : String
  cta1Label : String
  cta1Href : String
  cta2Label : String
  cta2Href : String

/-- `Object.assign({ style, icon: '' }, currentCtas[i] || {})`
(src/server.js:522-523): the defaults overlaid with the existing CTA's own
fields when it is an object. -/
def ctaBase (style : String) (old : Option Json) : List (String × Json) :=
  let base : List (String × Json) := [("style", .str style), ("icon", .str "")]
  match old with
  | some (.obj kvs) => objAssign base kvs
  | _ => base

/-- `if (label) cta.label = label; if (href) cta.href = href;`
(src/server.js:524-527). -/
def ctaApply (cta : List (String × Json)) (label href : String) :
    List (String × Json) :=
  let c₁ := if label ≠ "" then jSet cta "label" (.str label) else cta
  if href ≠ "" then jSet c₁ "href" (.str href) else c₁

/-- `[cta1, cta2].filter((c) => c && (c.label || c.href))`
(src/server.js:528). -/
def ctaKeep (c : List (String × Json)) : Bool :=
  jsTruthy ((jLookup c "label").getD .null) || jsTruthy ((jLookup c "href").getD .null)

def adminHero (b : HeroInput) (site : Json) : Except String Json :=
  match site with
  | .obj siteKvs =>
    let hero0 := getObjFields (jLookup siteKvs "hero")
    let enabled := parseEnabled b.enabled
    let greeting := jsTrim b.greeting
    let firstName := jsTrim b.firstName
    let lastName := jsTrim b.lastName
    let description := jsTrim b.description
    let scrollText := jsTrim b.scrollText
    let titles :=
      (((strSplitOn b.titles '\n').map jsTrim).filter (fun l => l ≠ "")).take 12
    let cta1Label := jsTrim b.cta1Label
    let cta1Href := jsTrim b.cta1Href
    let cta2Label := jsTrim b.cta2Label
    let cta2Href := jsTrim b.cta2Href
    if greeting.length > 80 then .error "Greeting+too+long"
    else if firstName = "" then .error "First+name+is+required"
    else if lastName = "" then .error "Last+name+is+required"
    else if firstName.length > 40 then .error "First+name+too+long"
    else if lastName.length > 40 then .error "Last+name+too+long"
    else if description.length > 320 then .error "Description+too+long"
    else if scrollText.length > 40 then .error "Scroll+text+too+long"
    else if cta1Label.length > 40 ∨ cta2Label.length > 40 then .error "CTA+text+too+long"
    else if cta1Href.length > 240 ∨ cta2Href.length > 240 then .error "CTA+URL+too+long"
    else
      let hero1 :=
        jSet (jSet (jSet (jSet (jSet (jSet (jSet hero0
          "enabled" (.bool enabled))
          "greeting" (.str greeting))
          "firstName" (.str firstName))
          "lastName" (.str lastName))
          "description" (.str description))
          "scrollText" (.str scrollText))
          "titles" (.arr (titles.map Json.str))
      let currentCtas := match jLookup hero0 "ctas" with
        | some (.arr cs) => cs
        | _ => []
      let cta1 := ctaApply (ctaBase "primary" currentCtas.head?) cta1Label cta1Href
      let cta2 := ctaApply (ctaBase "outline" (currentCtas.drop 1).head?) cta2Label cta2Href
      let ctas := ([cta1, cta2].filter ctaKeep).map Json.obj
      let hero2 := jSet hero1 "ctas" (.arr ctas)
      .ok (.obj (jSet siteKvs "hero" (.obj hero2)))
  | _ => .error "Missing+site.json"

/-- One raw card group of `POST /admin/projects` (src/server.js:702-734). -/
structure CardInput where
  category : String
  frontIcon : String
  frontTitle : String
  frontDesc : String
  backTitle : String
  backDesc : String
  techCsv : String
  linkType : String
  linkLabel : String
  linkHref : String
  linkIcon : String

/-- The card built for one raw group, or `none` when the required
`frontTitle` is missing (the group is silently dropped). -/
def projectCard (p : CardInput) : Option Json :=
  let category := jsTrim p.category
  let frontIcon := jsTrim p.frontIcon
  let frontTitle := jsTrim p.frontTitle
  let frontDesc := jsTrim p.frontDesc
  let backTitle := jsTrim p.backTitle
  let backDesc := jsTrim p.backDesc
  let tech := splitCsv p.techCsv (some 20)
  let linkType := if jsTrim p.linkType = "" then "link" else jsTrim p.linkType
  let linkLabel := jsTrim p.linkLabel
  let linkHref := jsTrim p.linkHref
  let linkIcon := jsTrim p.linkIcon
  if frontTitle = "" then none
  else
    let card : List (String × Json) :=
      [("category", .str category), ("frontIcon", .str frontIcon),
        ("frontTitle", .str frontTitle), ("frontDesc", .str frontDesc),
        ("backTitle", .str backTitle), ("backDesc", .str backDesc),
        ("tech", .arr (tech.map Json.str))]
    let card :=
      if linkLabel ≠ "" ∨ linkHref ≠ "" ∨ linkIcon ≠ "" then
        if linkType = "status" then
          jSet card "link"
            (.obj [("type", .str "status"), ("icon", .str linkIcon),
              ("label", .str linkLabel)])
        else
          jSet card "link"
            (.obj [("href", .str linkHref), ("icon", .str linkIcon),
              ("label", .str linkLabel)])
      else card
    some (.obj card)

/-- The filter rows of `POST /admin/projects` (src/server.js:692-700). -/
def projectFilters (filtersLines : String) : List Json :=
  (splitLines filtersLines (some 30)).filterMap (fun line =>
    let parts := (strSplitOn line '|').map jsTrim
    let label := match parts with
      | [] => ""
      | p :: _ => p
    let value := jsTrim (joinSep " | " (parts.drop 1))
    if label = "" ∨ value = "" then none
    else some (.obj [("label", .str label), ("value", .str value)]))

/-- The body of `POST /admin/projects` (src/server.js:685-755). -/
structure ProjectsInput where
  enabled : FormValue
  number : String
  title : String
  filtersLines : String
  cards : List CardInput

def adminProjects (b : ProjectsInput) (site : Json) : Except String Json :=
  let enabled := parseEnabled b.enabled
  let number := jsTrim b.number
  let title := jsTrim b.title
  let filters := projectFilters b.filtersLines
  let cards := (b.cards.filterMap projectCard).take 40
  if number.length > 10 then .error "Number+too+long"
  else if title = "" then .error "Title+is+required"
  else if title.length > 60 then .error "Title+too+long"
  else
    match site with
    | .obj siteKvs =>
      let next :=
        jSet (jSet (jSet (jSet (jSet (getObjFields (jLookup siteKvs "projects"))
          "enabled" (.bool enabled))
          "number" (.str number))
          "title" (.str title))
          "filters" (.arr filters))
          "cards" (.arr cards)
      .ok (.obj (jSet siteKvs "projects" (.obj next)))
    | _ => .error "Missing+site.json"

/-- `EDITABLE_SECTIONS` (src/server.js:63-77). -/
def EDITABLE_SECTIONS : List String :=
  ["meta", "nav", "hero", "about", "techstack", "projects", "casestudies",
    "experience", "certifications", "blog", "github", "contact", "footer"]

/-- `POST /admin/section/:id` (src/server.js:1088-1120): parse the submitted
JSON, require a non-array object, and store it as the whole section — for
every section other than `meta` and `nav` with its `enabled` property
overwritten by the submitted form flag first. -/
def adminSection (sectionId : String) (rawJson : String) (enabledV : FormValue)
    (site : Json) : Except String Json :=
  if ¬ EDITABLE_SECTIONS.contains sectionId then .error "Unknown+section"
  else
    match Json.parse rawJson with
    | none => .error "Invalid+JSON"
    | some parsed =>
      match parsed with
      | .obj kvs =>
        match site with
        | .obj siteKvs =>
          let enabled := parseEnabled enabledV
          let stored :=
            if sectionId ≠ "meta" ∧ sectionId ≠ "nav" then
              jSet kvs "enabled" (.bool enabled)
            else kvs
          .ok (.obj (jSet siteKvs sectionId (.obj stored)))
        | _ => .error "Missing+site.json"
      | _ => .error "Section+must+be+an+object"

/-! ## Claims -/

/-- C1 (counterexample): two operations are enqueued; the first fails with
`EACCES`.  The queue does NOT advance — the second operation never executes
(the trace holds only the first value, and its `ran` flag is `false`) — and
the first operation's failure is reported to the second caller as well
(`rejected "EACCES"` twice), contradicting the claimed failure policy. -/
theorem C1_queue_counterexample :
    runQueue ⟨none, none⟩ [⟨.null, some "EACCES"⟩, ⟨.bool true, none⟩] =
      (⟨some "EACCES", none⟩,
        [Outcome.rejected "EACCES", Outcome.rejected "EACCES"], [Json.null]) ∧
    (enqueueStep ⟨some "EACCES", none⟩ ⟨.bool true, none⟩).2.2 = false := by
  exact ⟨rfl, rfl⟩

/-- C1 (amended): the promise chain of `writeJsonAtomic` has no rejection
handler, so once a queued operation fails the chain is permanently rejected:
no subsequently enqueued operation ever executes, every subsequent caller
receives the first failure, and the file is never touched again. -/
theorem C1_queue_failure_stalls :
    (∀ (s : QState) (op : WriteOp) (e : String), s.chain = none → op.fsError = some e →
      enqueueStep s op = (⟨some e, s.file⟩, .rejected e, true)) ∧
    (∀ (s : QState) (e : String) (ops : List WriteOp), s.chain = some e →
      runQueue s ops =
        (⟨some e, s.file⟩, List.replicate ops.length (.rejected e), [])) := by
  constructor
  · intro s op e hs hop
    simp [enqueueStep, hs, hop]
  · intro s e ops hs
    induction ops generalizing s with
    | nil =>
      obtain ⟨c, f⟩ := s
      simp only at hs
      subst hs
      simp [runQueue]
    | cons op ops ih =>
      rw [runQueue]
      simp only [enqueueStep, hs]
      rw [ih ⟨some e, s.file⟩ rfl]
      simp [List.replicate]

theorem C1_queue_failure_stalls_witness :
    enqueueStep ⟨none, some "f"⟩ ⟨.null, some "EIO"⟩ =
      (⟨some "EIO", some "f"⟩, .rejected "EIO", true) ∧
    runQueue ⟨some "EIO", some "f"⟩ [⟨.bool true, none⟩] =
      (⟨some "EIO", some "f"⟩, [Outcome.rejected "EIO"], []) := by
  refine ⟨C1_queue_failure_stalls.1 ⟨none, some "f"⟩ ⟨.null, some "EIO"⟩ "EIO" rfl rfl, ?_⟩
  exact C1_queue_failure_stalls.2 ⟨some "EIO", some "f"⟩ "EIO" [⟨.bool true, none⟩] rfl

/-- C2: writing a document stores exactly
`JSON.stringify(D, null, 2) + '\n'`, and reading that content back parses to
a value structurally equal to `D`, for every representable document. -/
theorem C2_write_read_roundtrip :
    (∀ (s : QState) (D : Json), s.chain = none →
      (enqueueStep s ⟨D, none⟩).1.file = some (writtenContent D)) ∧
    (∀ (D fallback : Json), readJson (.ok (writtenContent D)) fallback = .ok D) := by
  constructor
  · intro s D hs
    simp [enqueueStep, hs]
  · intro D fallback
    rw [readJson, parse_writtenContent]

theorem C2_write_read_roundtrip_witness :
    (enqueueStep ⟨none, none⟩ ⟨.null, none⟩).1.file = some (writtenContent .null) ∧
    readJson (.ok (writtenContent .null)) (.bool false) = .ok .null :=
  ⟨C2_write_read_roundtrip.1 ⟨none, none⟩ .null rfl,
    C2_write_read_roundtrip.2 .null (.bool false)⟩

/-- C3: when the underlying filesystem operations succeed, `N` enqueued
writes produce exactly `N` fulfilled completions in enqueue order, the
executed trace is exactly the enqueue order (one at a time), and the final
file content is the serialization of the last enqueued value. -/
theorem C3_queue_serializes (s : QState) (ops : List WriteOp)
    (hchain : s.chain = none) (hok : ∀ op ∈ ops, op.fsError = none) :
    (runQueue s ops).2.1 = List.replicate ops.length .resolved ∧
    (runQueue s ops).2.2 = ops.map (fun op => op.value) ∧
    (runQueue s ops).1.chain = none ∧
    (∀ opLast, ops.getLast? = some opLast →
      (runQueue s ops).1.file = some (writtenContent opLast.value)) ∧
    (ops = [] → (runQueue s ops).1.file = s.file) := by
  induction ops generalizing s with
  | nil => simp [runQueue, hchain]
  | cons op ops ih =>
    have hop : op.fsError = none := hok op (by simp)
    have hrest : ∀ o ∈ ops, o.fsError = none := fun o ho => hok o (by simp [ho])
    rw [runQueue]
    simp only [enqueueStep, hchain, hop]
    obtain ⟨h1, h2, h3, h4, h5⟩ :=
      ih ⟨none, some (writtenContent op.value)⟩ rfl hrest
    refine ⟨by simp [h1, List.replicate], by simp [h2], h3, ?_, by simp⟩
    intro opLast hlast
    cases ops with
    | nil =>
      simp at hlast
      subst hlast
      simpa using h5 rfl
    | cons o2 ops2 =>
      rw [List.getLast?_cons_cons] at hlast
      exact h4 opLast hlast

theorem C3_queue_serializes_witness :
    (runQueue ⟨none, none⟩
        [⟨.num 0, none⟩, ⟨.num 1, none⟩, ⟨.num 2, none⟩]).2.1 =
      List.replicate 3 .resolved ∧
    (runQueue ⟨none, none⟩
        [⟨.num 0, none⟩, ⟨.num 1, none⟩, ⟨.num 2, none⟩]).2.2 =
      [Json.num 0, Json.num 1, Json.num 2] ∧
    (runQueue ⟨none, none⟩
        [⟨.num 0, none⟩, ⟨.num 1, none⟩, ⟨.num 2, none⟩]).1.file =
      some (writtenContent (.num 2)) := by
  have h := C3_queue_serializes ⟨none, none⟩
    [⟨.num 0, none⟩, ⟨.num 1, none⟩, ⟨.num 2, none⟩] rfl
    (by
      intro op hop
      simp only [List.mem_cons, List.not_mem_nil, or_false] at hop
      rcases hop with h | h | h <;> (subst h; rfl))
  exact ⟨h.1, h.2.1, h.2.2.2.1 ⟨.num 2, none⟩ rfl⟩

theorem appendSubmission_eq_keepLast (cur : List Submission) (s : Submission) :
    appendSubmission cur s = (cur ++ [s]).drop ((cur ++ [s]).length - 250) := by
  rw [appendSubmission]
  split
  · rfl
  · rename_i h
    have : (cur ++ [s]).length - 250 = 0 := by omega
    rw [this, List.drop_zero]

theorem keepLast_append (l : List Submission) (s : Submission) :
    appendSubmission (l.drop (l.length - 250)) s =
      (l ++ [s]).drop ((l ++ [s]).length - 250) := by
  rw [appendSubmission_eq_keepLast]
  rw [show l.drop (l.length - 250) ++ [s] = (l ++ [s]).drop (l.length - 250) by
    rw [List.drop_append_of_le_length (by omega)]]
  rw [List.drop_drop]
  have harith : l.length - 250 + (((l ++ [s]).drop (l.length - 250)).length - 250) =
      (l ++ [s]).length - 250 := by
    simp [List.length_drop]
    omega
  rw [harith]

theorem foldl_appendSubmission (ss : List Submission) :
    ∀ l : List Submission,
      List.foldl appendSubmission (l.drop (l.length - 250)) ss =
        (l ++ ss).drop ((l ++ ss).length - 250) := by
  induction ss with
  | nil => intro l; simp
  | cons s ss ih =>
    intro l
    rw [List.foldl_cons, keepLast_append]
    have := ih (l ++ [s])
    rw [this]
    simp

/-- C4: an append never leaves more than 250 records; trimming always drops
exactly the oldest excess records from the front (the result is a suffix of
`log ++ [record]`); and 300 sequential appends starting from the empty log
leave exactly the 250 most recently appended records in arrival order. -/
theorem C4_submission_log_bounded :
    (∀ (cur : List Submission) (s : Submission),
      (appendSubmission cur s).length ≤ 250) ∧
    (∀ (cur : List Submission) (s : Submission),
      appendSubmission cur s = (cur ++ [s]).drop ((cur ++ [s]).length - 250)) ∧
    (∀ ss : List Submission, ss.length = 300 →
      List.foldl appendSubmission [] ss = ss.drop 50 ∧
      (List.foldl appendSubmission [] ss).length = 250) := by
  refine ⟨?_, appendSubmission_eq_keepLast, ?_⟩
  · intro cur s
    rw [appendSubmission_eq_keepLast]
    simp [List.length_drop]
    omega
  · intro ss hlen
    have h := foldl_appendSubmission ss []
    simp only [List.drop_nil, List.length_nil, Nat.zero_sub, List.drop_zero,
      List.nil_append] at h
    rw [h, hlen]
    constructor
    · rfl
    · simp [List.length_drop, hlen]

theorem C4_submission_log_bounded_witness :
    List.foldl appendSubmission []
        (List.replicate 300 (⟨"i", "c", "n", "e", "s", "m", "received"⟩ : Submission)) =
      (List.replicate 300 (⟨"i", "c", "n", "e", "s", "m", "received"⟩ : Submission)).drop 50 ∧
    (List.foldl appendSubmission []
        (List.replicate 300 (⟨"i", "c", "n", "e", "s", "m", "received"⟩ : Submission))).length =
      250 :=
  C4_submission_log_bounded.2.2 _ (by rw [List.length_replicate])

/-- C5: `readJson` yields the fallback when the file is missing (`ENOENT`)
or its contents do not parse, and never fails in those two cases; any other
read error is rethrown to the caller unchanged. -/
theorem C5_read_fallback :
    (∀ fallback : Json, readJson (.error .enoent) fallback = .ok fallback) ∧
    (∀ (raw : String) (fallback : Json), Json.parse raw = none →
      readJson (.ok raw) fallback = .ok fallback) ∧
    (∀ (code : String) (fallback : Json),
      readJson (.error (.other code)) fallback = .error (.other code)) := by
  refine ⟨fun fallback => rfl, ?_, fun code fallback => rfl⟩
  intro raw fallback h
  rw [readJson, h]

theorem C5_read_fallback_witness :
    readJson (.error .enoent) (.obj []) = .ok (.obj []) ∧
    readJson (.ok "not json \x7b") (.obj []) = .ok (.obj []) ∧
    readJson (.error (.other "EACCES")) .null = .error (.other "EACCES") :=
  ⟨C5_read_fallback.1 (.obj []), C5_read_fallback.2.1 "not json \x7b" (.obj []) rfl,
    C5_read_fallback.2.2 "EACCES" .null⟩

/-- C6: `patchSubmission` on a log whose first match is `s` shallow-merges
the patch into that record only and leaves every other record unchanged; a
status-only patch changes only the `status` field; and when no record has
the id the log is returned entirely unchanged (and no error is raised — the
function is total). -/
theorem C6_patch_submission :
    (∀ (log : List Submission) (pid : String) (p : SubPatch),
      (∀ s ∈ log, s.id ≠ pid) → patchSubmission log pid p = log) ∧
    (∀ (pre post : List Submission) (s : Submission) (pid : String) (p : SubPatch),
      (∀ t ∈ pre, t.id ≠ pid) → s.id = pid →
      patchSubmission (pre ++ s :: post) pid p = pre ++ applyPatch s p :: post) ∧
    (∀ s : Submission,
      applyPatch s { status := some "sent" } = { s with status := "sent" }) := by
  refine ⟨?_, ?_, fun s => rfl⟩
  · intro log pid p hnone
    induction log with
    | nil => rfl
    | cons s rest ih =>
      rw [patchSubmission, if_neg (hnone s (by simp))]
      rw [ih (fun t ht => hnone t (by simp [ht]))]
  · intro pre post s pid p hnone hs
    induction pre with
    | nil => simp [patchSubmission, hs]
    | cons t pre ih =>
      rw [List.cons_append, patchSubmission, if_neg (hnone t (by simp))]
      rw [ih (fun u hu => hnone u (by simp [hu]))]
      rfl

theorem C6_patch_submission_witness :
    patchSubmission
        [⟨"a", "c1", "n1", "e1", "s1", "m1", "received"⟩,
          ⟨"b", "c2", "n2", "e2", "s2", "m2", "received"⟩] "b"
        { status := some "sent" } =
      [⟨"a", "c1", "n1", "e1", "s1", "m1", "received"⟩,
        applyPatch ⟨"b", "c2", "n2", "e2", "s2", "m2", "received"⟩
          { status := some "sent" }] ∧
    patchSubmission [⟨"a", "c1", "n1", "e1", "s1", "m1", "received"⟩] "zz"
        { status := some "sent" } =
      [⟨"a", "c1", "n1", "e1", "s1", "m1", "received"⟩] := by
  constructor
  · exact C6_patch_submission.2.1
      [⟨"a", "c1", "n1", "e1", "s1", "m1", "received"⟩] []
      ⟨"b", "c2", "n2", "e2", "s2", "m2", "received"⟩ "b" { status := some "sent" }
      (by
        intro t ht
        simp only [List.mem_singleton] at ht
        subst ht
        decide)
      rfl
  · exact C6_patch_submission.1 [⟨"a", "c1", "n1", "e1", "s1", "m1", "received"⟩] "zz"
      { status := some "sent" }
      (by
        intro t ht
        simp only [List.mem_singleton] at ht
        subst ht
        decide)

/-- A 4001-character free-text value: longer than every length cap the admin
routes use (the largest is 4000, on the contact message). -/
def longDesc : String := String.mk (List.replicate 4001 'a')

theorem dropWhile_eq_self_of_none {m : List Char} (hm : ∀ c ∈ m, isJsWs c = false) :
    m.dropWhile isJsWs = m := by
  cases m with
  | nil => rfl
  | cons c t =>
    rw [List.dropWhile_cons, if_neg (by simp [hm c (by simp)])]

/-- Trimming a string with no whitespace characters anywhere does nothing. -/
theorem jsTrim_eq_self {l : List Char} (h : ∀ c ∈ l, isJsWs c = false) :
    jsTrim (String.mk l) = String.mk l := by
  rw [jsTrim]
  show String.mk ((l.dropWhile isJsWs).reverse.dropWhile isJsWs).reverse = String.mk l
  rw [dropWhile_eq_self_of_none h]
  rw [dropWhile_eq_self_of_none (fun c hc => h c (List.mem_reverse.mp hc))]
  rw [List.reverse_reverse]

/-- C7 (counterexample): the free-text card field `frontDesc` of
`POST /admin/projects` has NO maximum length.  A 4001-character description
— longer than any cap between 10 and 4000 — is accepted and stored verbatim
in the document rather than rejected, refuting "every free-text field
accepted by the normalization engine has a section-specific maximum
(10–4000) and every input exceeding it is rejected before any write". -/
theorem C7_projects_counterexample :
    4000 < longDesc.length ∧
    adminProjects
        ⟨.absent, "", "T", "", [⟨"", "", "t", longDesc, "", "", "", "", "", "", ""⟩]⟩
        (.obj []) =
      .ok (.obj [("projects", .obj [("enabled", .bool false), ("number", .str ""),
        ("title", .str "T"), ("filters", .arr []),
        ("cards", .arr [.obj [("category", .str ""), ("frontIcon", .str ""),
          ("frontTitle", .str "t"), ("frontDesc", .str longDesc),
          ("backTitle", .str ""), ("backDesc", .str ""), ("tech", .arr [])]])])]) := by
  have hlen : longDesc.length = 4001 := by
    rw [longDesc]
    show (List.replicate 4001 'a').length = 4001
    rw [List.length_replicate]
  have htrim : jsTrim longDesc = longDesc :=
    jsTrim_eq_self (fun c hc => by rw [List.eq_of_mem_replicate hc]; rfl)
  constructor
  · omega
  · have h0 : adminProjects
        ⟨.absent, "", "T", "", [⟨"", "", "t", longDesc, "", "", "", "", "", "", ""⟩]⟩
        (.obj []) =
      .ok (.obj [("projects", .obj [("enabled", .bool false), ("number", .str ""),
        ("title", .str "T"), ("filters", .arr []),
        ("cards", .arr [.obj [("category", .str ""), ("frontIcon", .str ""),
          ("frontTitle", .str "t"), ("frontDesc", .str (jsTrim longDesc)),
          ("backTitle", .str ""), ("backDesc", .str ""), ("tech", .arr [])]])])]) := rfl
    rw [htrim] at h0
    exact h0

/-- C7 (amended): the scalar free-text fields of the hero route do each have
a section-specific cap (greeting 80, names 40, description 320, scroll text
40, CTA labels 40, CTA URLs 240 — all within 10–4000) and an over-long value
is rejected with a length-specific reason before any write: an over-long
greeting yields exactly `Greeting+too+long`, an over-long description yields
exactly `Description+too+long` once the earlier checks pass, and no document
is ever stored while the description exceeds its cap.  (Fields inside
repeated card groups and list lines are NOT length-checked — see the
counterexample.) -/
theorem C7_hero_length_caps :
    (∀ (b : HeroInput) (siteKvs : List (String × Json)),
      80 < (jsTrim b.greeting).length →
      adminHero b (.obj siteKvs) = .error "Greeting+too+long") ∧
    (∀ (b : HeroInput) (siteKvs : List (String × Json)),
      (jsTrim b.greeting).length ≤ 80 →
      jsTrim b.firstName ≠ "" → jsTrim b.lastName ≠ "" →
      (jsTrim b.firstName).length ≤ 40 → (jsTrim b.lastName).length ≤ 40 →
      320 < (jsTrim b.description).length →
      adminHero b (.obj siteKvs) = .error "Description+too+long") ∧
    (∀ (b : HeroInput) (site : Json) (site' : Json),
      320 < (jsTrim b.description).length → adminHero b site ≠ .ok site') := by
  refine ⟨?_, ?_, ?_⟩
  · intro b siteKvs h80
    rw [adminHero]
    simp only [if_pos h80]
  · intro b siteKvs h80 hfn hln hfn40 hln40 hdesc
    rw [adminHero]
    simp only [if_neg (by omega : ¬ (jsTrim b.greeting).length > 80), if_neg hfn,
      if_neg hln, if_neg (by omega : ¬ (jsTrim b.firstName).length > 40),
      if_neg (by omega : ¬ (jsTrim b.lastName).length > 40),
      if_pos (by omega : (jsTrim b.description).length > 320)]
  · intro b site site' hdesc
    cases site with
    | null => simp [adminHero]
    | bool x => simp [adminHero]
    | num x => simp [adminHero]
    | str x => simp [adminHero]
    | arr x => simp [adminHero]
    | obj siteKvs =>
      rw [adminHero]
      intro hok
      repeat' split at hok
      all_goals exact Except.noConfusion hok

theorem C7_hero_length_caps_witness :
    adminHero ⟨.absent, String.mk (List.replicate 81 'g'), "", "", "", "", "", "", "", "",
        ""⟩ (.obj []) = .error "Greeting+too+long" ∧
    adminHero ⟨.absent, "", "f", "l", String.mk (List.replicate 321 'd'), "", "", "", "",
        "", ""⟩ (.obj []) = .error "Description+too+long" ∧
    adminHero ⟨.absent, "", "f", "l", String.mk (List.replicate 321 'd'), "", "", "", "",
        "", ""⟩ (.obj []) ≠ .ok (.obj []) := by
  have hg : jsTrim (String.mk (List.replicate 81 'g')) = String.mk (List.replicate 81 'g') :=
    jsTrim_eq_self (fun c hc => by rw [List.eq_of_mem_replicate hc]; rfl)
  have hd : jsTrim (String.mk (List.replicate 321 'd')) =
      String.mk (List.replicate 321 'd') :=
    jsTrim_eq_self (fun c hc => by rw [List.eq_of_mem_replicate hc]; rfl)
  have hglen : (jsTrim (String.mk (List.replicate 81 'g'))).length = 81 := by
    rw [hg]
    show (List.replicate 81 'g').length = 81
    rw [List.length_replicate]
  have hdlen : (jsTrim (String.mk (List.replicate 321 'd'))).length = 321 := by
    rw [hd]
    show (List.replicate 321 'd').length = 321
    rw [List.length_replicate]
  refine ⟨?_, ?_, ?_⟩
  · exact C7_hero_length_caps.1 _ []
      (by
        show 80 < (jsTrim (String.mk (List.replicate 81 'g'))).length
        omega)
  · exact C7_hero_length_caps.2.1 _ [] (by decide) (by decide) (by decide) (by decide)
      (by decide)
      (by
        show 320 < (jsTrim (String.mk (List.replicate 321 'd'))).length
        omega)
  · exact C7_hero_length_caps.2.2 _ (.obj []) (.obj [])
      (by
        show 320 < (jsTrim (String.mk (List.replicate 321 'd'))).length
        omega)

/-- C8 (counterexample): the code does not split a line on the FIRST `|`
keeping the remainder verbatim — it splits on every `|`, trims each part and
re-joins with `" | "`.  On `"a|b|c"` the code yields the label `"b | c"`
while the claimed first-bar split yields `"b|c"`. -/
theorem C8_icon_label_counterexample :
    parseIconLabelLines "a|b|c" (some 60) = [⟨"a", "b | c"⟩] ∧
    parseIconLabelLinesSpec "a|b|c" (some 60) = [⟨"a", "b|c"⟩] ∧
    parseIconLabelLines "a|b|c" (some 60) ≠ parseIconLabelLinesSpec "a|b|c" (some 60) := by
  refine ⟨rfl, rfl, ?_⟩
  intro h
  have : (["b | c"] : List String) = ["b|c"] := by
    have h1 : parseIconLabelLines "a|b|c" (some 60) = [⟨"a", "b | c"⟩] := rfl
    have h2 : parseIconLabelLinesSpec "a|b|c" (some 60) = [⟨"a", "b|c"⟩] := rfl
    rw [h1, h2] at h
    simpa using congrArg (fun l => l.map IconLabel.label) h
  simp at this

/-- C8 (amended): each line is split on every `|` with the parts trimmed;
the icon is the first part and the label is the remaining parts re-joined
with `" | "` (so the label may contain `|`, with normalized spacing); a line
with neither icon nor label is dropped.  The two cited examples hold as
claimed: `"fa-star | Gold Tier"` parses to icon `fa-star`, label
`Gold Tier`, and `"justtext"` parses to icon `justtext`, empty label. -/
theorem C8_icon_label_amended :
    parseIconLabelLines "fa-star | Gold Tier" (some 60) = [⟨"fa-star", "Gold Tier"⟩] ∧
    parseIconLabelLines "justtext" (some 60) = [⟨"justtext", ""⟩] ∧
    (∀ (v : String) (max : Option Nat) (r : IconLabel),
      r ∈ parseIconLabelLines v max → ¬(r.icon = "" ∧ r.label = "")) := by
  refine ⟨rfl, rfl, ?_⟩
  intro v max r hr
  rw [parseIconLabelLines] at hr
  obtain ⟨line, _, hline⟩ := List.mem_filterMap.mp hr
  by_cases hcond :
      jsTrim (joinSep " | " (((strSplitOn line '|').map jsTrim).drop 1)) = "" ∧
      (match (strSplitOn line '|').map jsTrim with
        | [] => ""
        | p :: _ => p) = ""
  · rw [if_pos hcond] at hline
    cases hline
  · rw [if_neg hcond] at hline
    intro hcontra
    apply hcond
    cases hline
    exact ⟨hcontra.2, hcontra.1⟩

theorem C8_icon_label_amended_witness :
    ¬((IconLabel.mk "fa-star" "Gold Tier").icon = "" ∧
      (IconLabel.mk "fa-star" "Gold Tier").label = "") :=
  C8_icon_label_amended.2.2 "fa-star | Gold Tier" (some 60) ⟨"fa-star", "Gold Tier"⟩
    (by rw [C8_icon_label_amended.1]; exact List.mem_singleton.mpr rfl)

theorem jLookup_cons (k' : String) (v : Json) (t : List (String × Json)) (k : String) :
    jLookup ((k', v) :: t) k = if k' = k then some v else jLookup t k := by
  by_cases h : k' = k
  · rw [jLookup, List.find?_cons_of_pos _ (by simp [h]), if_pos h]
  · rw [jLookup, List.find?_cons_of_neg _ (by simp [h]), if_neg h, jLookup]

theorem jLookup_eq_find? (l : List (String × Json)) (k : String) :
    jLookup l k = Option.map (fun p => p.2) (l.find? (fun p => p.1 = k)) := by
  rw [jLookup]
  cases l.find? (fun p => p.1 = k) <;> rfl

theorem jLookup_append (A B : List (String × Json)) (k : String) :
    jLookup (A ++ B) k =
      match jLookup A k with
      | some v => some v
      | none => jLookup B k := by
  induction A with
  | nil => simp [jLookup]
  | cons p t ih =>
    obtain ⟨k₁, v₁⟩ := p
    rw [List.cons_append, jLookup_cons, jLookup_cons]
    by_cases h : k₁ = k
    · simp [h]
    · simp [h, ih]

theorem jLookup_map_keys (old : List (String × Json)) (F : String × Json → Json)
    (k : String) :
    jLookup (old.map (fun p => (p.1, F p))) k =
      Option.map F (old.find? (fun p => p.1 = k)) := by
  induction old with
  | nil => rfl
  | cons p t ih =>
    rw [List.map_cons, jLookup_cons]
    by_cases h : p.1 = k
    · rw [if_pos h, List.find?_cons_of_pos _ (by simp [h]), Option.map_some']
    · rw [if_neg h, List.find?_cons_of_neg _ (by simp [h]), ih]

theorem jLookup_filter_none {new : List (String × Json)} {k : String}
    (h : jLookup new k = none) (g : String × Json → Bool) :
    jLookup (new.filter g) k = none := by
  induction new with
  | nil => rfl
  | cons q t ih =>
    obtain ⟨k₁, v₁⟩ := q
    rw [jLookup_cons] at h
    by_cases hk : k₁ = k
    · rw [if_pos hk] at h
      cases h
    · rw [if_neg hk] at h
      rw [List.filter_cons]
      split
    --
      · rw [jLookup_cons, if_neg hk]
        exact ih h
      · exact ih h

/-- A key that the assigned fields do not carry keeps the value it had in the
base object. -/
theorem jLookup_objAssign (old new : List (String × Json)) (k : String)
    (h : jLookup new k = none) :
    jLookup (objAssign old new) k = jLookup old k := by
  rw [objAssign, jLookup_append, jLookup_map_keys]
  cases hf : old.find? (fun p => p.1 = k) with
  | some p =>
    have hp : p.1 = k := by simpa using List.find?_some hf
    rw [Option.map_some']
    rw [show (match jLookup new p.1 with
        | some w => w
        | none => p.2) = p.2 from by rw [hp, h]]
    show some p.2 = jLookup old k
    rw [jLookup_eq_find?, hf, Option.map_some']
  | none =>
    rw [Option.map_none']
    rw [jLookup_filter_none h]
    rw [jLookup_eq_find?, hf, Option.map_none']

/-- A key other than the one being set is unaffected by `jSet`. -/
theorem jLookup_jSet_ne (kvs : List (String × Json)) (k' : String) (v : Json)
    (k : String) (h : k' ≠ k) : jLookup (jSet kvs k' v) k = jLookup kvs k := by
  induction kvs with
  | nil => simp [jSet, jLookup_cons, h, jLookup]
  | cons p t ih =>
    obtain ⟨k₁, v₁⟩ := p
    rw [jSet]
    by_cases hk : k₁ = k'
    · rw [if_pos hk, jLookup_cons, jLookup_cons]
      subst hk
      simp [h]
    · rw [if_neg hk, jLookup_cons, jLookup_cons, ih]

/-- C9 (counterexample): the per-section JSON route replaces the section
object outright.  With a prior `meta` section `{title:"T", extra:"X"}`,
submitting `{"title": "U"}` through `POST /admin/section/meta` stores
`{title:"U"}` — the untouched field `extra` is NOT preserved, refuting
"every section-update operation other than the whole-document verbatim
replace preserves fields its output does not set". -/
theorem C9_section_replace_counterexample :
    adminSection "meta" "\x7b\"title\": \"U\"\x7d" .absent
        (.obj [("meta", .obj [("title", .str "T"), ("extra", .str "X")])]) =
      .ok (.obj [("meta", .obj [("title", .str "U")])]) ∧
    jLookup [("title", Json.str "T"), ("extra", Json.str "X")] "extra" =
      some (.str "X") ∧
    jLookup [("title", Json.str "U")] "extra" = none :=
  ⟨rfl, rfl, rfl⟩

/-- C9 (amended): the per-section FORM routes shallow-merge — for
`POST /admin/meta`, any `meta` field other than the three the route sets
(`title`, `description`, `ogImage`) keeps its previous value in the stored
document.  The per-section JSON route (`POST /admin/section/:id`), by
contrast, replaces the section outright: every stored field other than the
overwritten `enabled` flag comes from the submitted payload alone, so prior
fields absent from the payload are lost (see the counterexample). -/
theorem C9_meta_merges_section_replaces :
    (∀ (b : MetaInput) (siteKvs metaKvs : List (String × Json)) (k : String),
      jLookup siteKvs "meta" = some (.obj metaKvs) →
      k ≠ "title" → k ≠ "description" → k ≠ "ogImage" →
      jsTrim b.title ≠ "" → (jsTrim b.title).length ≤ 120 →
      (jsTrim b.description).length ≤ 240 → (jsTrim b.ogImage).length ≤ 300 →
      ∃ metaKvs',
        adminMeta b (.obj siteKvs) = .ok (.obj (jSet siteKvs "meta" (.obj metaKvs'))) ∧
        jLookup metaKvs' k = jLookup metaKvs k) ∧
    (∀ (id raw : String) (enabledV : FormValue) (siteKvs kvs : List (String × Json)),
      EDITABLE_SECTIONS.contains id = true → id ≠ "meta" → id ≠ "nav" →
      Json.parse raw = some (.obj kvs) →
      ∃ stored,
        adminSection id raw enabledV (.obj siteKvs) =
          .ok (.obj (jSet siteKvs id (.obj stored))) ∧
        ∀ k, k ≠ "enabled" → jLookup stored k = jLookup kvs k) := by
  constructor
  · intro b siteKvs metaKvs k hmeta hk1 hk2 hk3 htitle hlen hdlen holen
    have hnone : jLookup [("title", Json.str (jsTrim b.title)),
        ("description", Json.str (jsTrim b.description)),
        ("ogImage", Json.str (jsTrim b.ogImage))] k = none := by
      rw [jLookup_cons, if_neg (Ne.symm hk1), jLookup_cons, if_neg (Ne.symm hk2),
        jLookup_cons, if_neg (Ne.symm hk3)]
      rfl
    refine ⟨objAssign metaKvs
      [("title", Json.str (jsTrim b.title)),
        ("description", Json.str (jsTrim b.description)),
        ("ogImage", Json.str (jsTrim b.ogImage))], ?_, ?_⟩
    · rw [adminMeta]
      rw [if_neg htitle, if_neg (by omega : ¬ (jsTrim b.title).length > 120),
        if_neg (by omega : ¬ (jsTrim b.description).length > 240),
        if_neg (by omega : ¬ (jsTrim b.ogImage).length > 300)]
      have hobj : getObjFields (jLookup siteKvs "meta") = metaKvs := by
        rw [hmeta]
        rfl
      simp only [hobj]
    · exact jLookup_objAssign metaKvs _ k hnone
  · intro id raw enabledV siteKvs kvs hcont hm hn hparse
    refine ⟨jSet kvs "enabled" (.bool (parseEnabled enabledV)), ?_, ?_⟩
    · simp only [adminSection, if_neg (not_not_intro hcont), hparse,
        if_pos (show id ≠ "meta" ∧ id ≠ "nav" from ⟨hm, hn⟩)]
    · intro k hk
      exact jLookup_jSet_ne kvs "enabled" _ k (Ne.symm hk)

theorem C9_meta_merges_section_replaces_witness :
    (∃ metaKvs',
      adminMeta ⟨"U", "", ""⟩
          (.obj [("meta", .obj [("title", .str "T"), ("extra", .str "X")])]) =
        .ok (.obj (jSet [("meta", .obj [("title", .str "T"), ("extra", .str "X")])]
          "meta" (.obj metaKvs'))) ∧
      jLookup metaKvs' "extra" =
        jLookup [("title", Json.str "T"), ("extra", Json.str "X")] "extra") ∧
    (∃ stored,
      adminSection "hero" "\x7b\"x\": true\x7d" .absent (.obj []) =
        .ok (.obj (jSet [] "hero" (.obj stored))) ∧
      ∀ k, k ≠ "enabled" → jLookup stored k = jLookup [("x", Json.bool true)] k) := by
  constructor
  · exact C9_meta_merges_section_replaces.1 ⟨"U", "", ""⟩
      [("meta", .obj [("title", .str "T"), ("extra", .str "X")])]
      [("title", .str "T"), ("extra", .str "X")] "extra" rfl (by decide) (by decide)
      (by decide) (by decide) (by decide) (by decide) (by decide)
  · exact C9_meta_merges_section_replaces.2 "hero" "\x7b\"x\": true\x7d" .absent []
      [("x", Json.bool true)] rfl (by decide) (by decide) rfl

/-- C10: for every editable section other than `meta` and `nav`, a
successful `POST /admin/section/:id` stores the submitted object with its
`enabled` field overwritten by the submitted form flag; the flag is `true`
exactly when one of the submitted `enabled` values trims to `"1"`; and for
`meta` and `nav` the payload is stored exactly as given. -/
theorem C10_section_enabled_override :
    (∀ (id raw : String) (enabledV : FormValue) (siteKvs kvs : List (String × Json)),
      EDITABLE_SECTIONS.contains id = true → id ≠ "meta" → id ≠ "nav" →
      Json.parse raw = some (.obj kvs) →
      adminSection id raw enabledV (.obj siteKvs) =
        .ok (.obj (jSet siteKvs id
          (.obj (jSet kvs "enabled" (.bool (parseEnabled enabledV))))))) ∧
    (∀ (id raw : String) (enabledV : FormValue) (siteKvs kvs : List (String × Json)),
      (id = "meta" ∨ id = "nav") →
      Json.parse raw = some (.obj kvs) →
      adminSection id raw enabledV (.obj siteKvs) =
        .ok (.obj (jSet siteKvs id (.obj kvs)))) ∧
    (∀ v : FormValue,
      parseEnabled v = true ↔ ∃ s ∈ normalizeArray v, jsTrim s = "1") := by
  refine ⟨?_, ?_, ?_⟩
  · intro id raw enabledV siteKvs kvs hcont hm hn hparse
    simp only [adminSection, if_neg (not_not_intro hcont), hparse,
      if_pos (show id ≠ "meta" ∧ id ≠ "nav" from ⟨hm, hn⟩)]
  · intro id raw enabledV siteKvs kvs hid hparse
    rcases hid with rfl | rfl
    · simp only [adminSection, if_neg (by decide :
        ¬¬(EDITABLE_SECTIONS.contains "meta" = true)), hparse,
        if_neg (by simp : ¬(("meta" : String) ≠ "meta" ∧ ("meta" : String) ≠ "nav"))]
    · simp only [adminSection, if_neg (by decide :
        ¬¬(EDITABLE_SECTIONS.contains "nav" = true)), hparse,
        if_neg (by simp : ¬(("nav" : String) ≠ "meta" ∧ ("nav" : String) ≠ "nav"))]
  · intro v
    rw [parseEnabled]
    generalize normalizeArray v = l
    induction l with
    | nil => simp
    | cons s t ih =>
      simp only [List.map_cons, List.contains_cons, Bool.or_eq_true, beq_iff_eq] at *
      constructor
      · rintro (h | h)
        · exact ⟨s, by simp, h.symm⟩
        · obtain ⟨x, hx, hx1⟩ := ih.mp h
          exact ⟨x, by simp [hx], hx1⟩
      · rintro ⟨x, hx, hx1⟩
        rcases List.mem_cons.mp hx with rfl | hx
        · exact Or.inl hx1.symm
        · exact Or.inr (ih.mpr ⟨x, hx, hx1⟩)

theorem C10_section_enabled_override_witness :
    adminSection "hero" "\x7b\"enabled\": false, \"greeting\": \"hi\"\x7d" (.one " 1 ")
        (.obj []) =
      .ok (.obj [("hero",
        .obj (jSet [("enabled", Json.bool false), ("greeting", Json.str "hi")]
          "enabled" (.bool (parseEnabled (.one " 1 ")))))]) ∧
    adminSection "meta" "\x7b\"title\": \"U\"\x7d" (.one " 1 ") (.obj []) =
      .ok (.obj [("meta", .obj [("title", Json.str "U")])]) ∧
    (parseEnabled (.one " 1 ") = true ↔
      ∃ s ∈ normalizeArray (.one " 1 "), jsTrim s = "1") := by
  refine ⟨?_, ?_, C10_section_enabled_override.2.2 (.one " 1 ")⟩
  · exact C10_section_enabled_override.1 "hero"
      "\x7b\"enabled\": false, \"greeting\": \"hi\"\x7d" (.one " 1 ") []
      [("enabled", Json.bool false), ("greeting", Json.str "hi")] rfl (by decide)
      (by decide) rfl
  · exact C10_section_enabled_override.2.1 "meta" "\x7b\"title\": \"U\"\x7d" (.one " 1 ") []
      [("title", Json.str "U")] (Or.inl rfl) rfl

end Portfolio
